import Mathlib

/-!
Shallow embedding of `src/extensions/vscode/src/vaults/FocusedVaultManager.ts`.

The source file defines two classes:

* `FocusedVaultManager` — runs a periodic vault-discovery pass
  (`checkVaultKeyAndUpdateConnection`), switches the focused vault
  (`switchFocusedVault`), and hosts two subscriber registries
  (`focusedVaultSubscribers`, `batchTraceSubscribers`, JS `Map`s keyed by
  generated uuids).
* `FocusedVault` — owns one websocket connection, accumulates `tracesData`,
  and throttles increment delivery through `pendingTraces` /
  `throttleTimeout` (`queueTracesForSending`, `sendTracesImmediately`,
  `sendPendingTraces`).

The embedding is event-driven: every handler of the source (the discovery
pass, the websocket `message` handler, the websocket `close` handler, the
throttle timeout body, the reconnect timeout body) becomes a pure function
`state → input → state × output`.  Outputs record the externally visible
actions: callback invocations (tagged by call site), `setTimeout`
scheduling of reconnects, and socket closes.  Timers are modelled by
explicit fire events; sockets by numeric ids handed out freshly.
-/

/-- Model of the opaque `Trace` payload (`../bindings/Trace`); the spec's
examples only ever distinguish traces by an `id` field. -/
structure Trace where
  id : Nat
deriving DecidableEq

/-- `VaultHistoryEntry` as used by the discovery pass: a vault key plus its
creation timestamp (`createdAt`, a JS numeric timestamp, modelled as `Int`). -/
structure VaultHistoryEntry where
  key : String
  createdAt : Int
deriving DecidableEq

/-- State of a `FocusedVault` object.  `wsConnection` holds the id of the
socket owned by this vault (`none` once closed / nulled).  `throttleTimeout`
is `true` while a throttle timer is armed.  `isFirst` is the local variable
of `connectToTraceWebSocket` captured by the `message` handler; `retries`
is the `retries` argument of the `switchFocusedVault` call that created
this vault, captured by its `onClose` closure. -/
structure FocusedVault where
  key : String
  tracesData : List Trace
  wsConnection : Option Nat
  pendingTraces : List Trace
  throttleTimeout : Bool
  isFirst : Bool
  retries : Nat
deriving DecidableEq

/-- An invocation of the `onBatchTrace` callback, tagged by call site:
`immediate` for `sendTracesImmediately` (initial backlog), `batched` for
`sendPendingTraces` (throttled flush). -/
inductive BatchCall where
  | immediate (traces : List Trace)
  | batched (traces : List Trace)
deriving DecidableEq

/-- Externally visible actions of one `FocusedVault` handler invocation:
the `onBatchTrace` calls it makes and how many throttle timers it arms
(`setTimeout` calls in `queueTracesForSending`). -/
structure VaultOut where
  calls : List BatchCall
  timersArmed : Nat
deriving DecidableEq

def emptyVaultOut : VaultOut := ⟨[], 0⟩

def appendVaultOut (a b : VaultOut) : VaultOut :=
  ⟨a.calls ++ b.calls, a.timersArmed + b.timersArmed⟩

/-- The `FocusedVault` constructor: empty trace buffer, fresh socket,
no pending traces, no armed timer, `isFirst` true. -/
def mkFocusedVault (key : String) (retries : Nat) (sockId : Nat) : FocusedVault :=
  { key := key, tracesData := [], wsConnection := some sockId,
    pendingTraces := [], throttleTimeout := false, isFirst := true,
    retries := retries }

/-- `queueTracesForSending`: append to `pendingTraces`; if no throttle
timeout is active, arm one (recorded in `timersArmed`), otherwise wait for
the existing one. -/
def queueTracesForSending (v : FocusedVault) (traces : List Trace) :
    FocusedVault × VaultOut :=
  let v1 := { v with pendingTraces := v.pendingTraces ++ traces }
  if v1.throttleTimeout then (v1, emptyVaultOut)
  else ({ v1 with throttleTimeout := true }, ⟨[], 1⟩)

/-- `sendTracesImmediately`: invoke `onBatchTrace` right away, but only
when the list is non-empty (`traces.length > 0` guard in the source). -/
def sendTracesImmediately (v : FocusedVault) (traces : List Trace) :
    FocusedVault × VaultOut :=
  if 0 < traces.length then (v, ⟨[BatchCall.immediate traces], 0⟩)
  else (v, emptyVaultOut)

/-- `sendPendingTraces` (the throttle timeout body): if `pendingTraces` is
non-empty, send a copy via `onBatchTrace` and clear it; in all cases reset
the timeout. -/
def sendPendingTraces (v : FocusedVault) : FocusedVault × VaultOut :=
  if 0 < v.pendingTraces.length then
    ({ v with pendingTraces := [], throttleTimeout := false },
     ⟨[BatchCall.batched v.pendingTraces], 0⟩)
  else ({ v with throttleTimeout := false }, emptyVaultOut)

/-- A websocket frame as seen by the `message` handler after
`JSON.parse`: an array of traces, a single trace, or a frame on which
`JSON.parse` throws (`malformed`). -/
inductive Frame where
  | single (t : Trace)
  | arr (traces : List Trace)
  | malformed
deriving DecidableEq

/-- The websocket `message` handler of `connectToTraceWebSocket`.
On an array: if `isFirst`, replace `tracesData` and send immediately,
else append all and queue.  On a single trace: append and queue a
one-element list.  `isFirst = false` is executed inside the `try` after
processing, so a malformed frame (caught parse error) changes nothing. -/
def onMessage (v : FocusedVault) (f : Frame) : FocusedVault × VaultOut :=
  match f with
  | Frame.malformed => (v, emptyVaultOut)
  | Frame.arr ts =>
      if v.isFirst then
        let v1 := { v with tracesData := ts }
        let p := sendTracesImmediately v1 ts
        ({ p.1 with isFirst := false }, p.2)
      else
        let v1 := { v with tracesData := v.tracesData ++ ts }
        let p := queueTracesForSending v1 ts
        ({ p.1 with isFirst := false }, p.2)
  | Frame.single t =>
      let v1 := { v with tracesData := v.tracesData ++ [t] }
      let p := queueTracesForSending v1 [t]
      ({ p.1 with isFirst := false }, p.2)

/-- Events delivered to one connection: a frame arriving, or the armed
throttle timeout firing. -/
inductive ConnEvent where
  | message (f : Frame)
  | throttleFire
deriving DecidableEq

def connStep (v : FocusedVault) (e : ConnEvent) : FocusedVault × VaultOut :=
  match e with
  | ConnEvent.message f => onMessage v f
  | ConnEvent.throttleFire => sendPendingTraces v

/-- Run a sequence of connection events, concatenating the outputs. -/
def runConn (v : FocusedVault) (es : List ConnEvent) : FocusedVault × VaultOut :=
  match es with
  | [] => (v, emptyVaultOut)
  | e :: rest =>
      let p := connStep v e
      let q := runConn p.1 rest
      (q.1, appendVaultOut p.2 q.2)

/-- Run a sequence of `queueTracesForSending` calls (the enqueue side of
the batcher), concatenating the outputs. -/
def runEnqueues (v : FocusedVault) (batches : List (List Trace)) :
    FocusedVault × VaultOut :=
  match batches with
  | [] => (v, emptyVaultOut)
  | ts :: rest =>
      let p := queueTracesForSending v ts
      let q := runEnqueues p.1 rest
      (q.1, appendVaultOut p.2 q.2)

/-- State of a `FocusedVaultManager` instance.  `vaultKeyPollingInterval`
records whether the polling interval is set; `nextSocketId` is model
bookkeeping handing out fresh socket ids.  The subscriber `Map`s are
modelled by their key lists in insertion order (a JS `Map` iterates in
insertion order and its keys are unique). -/
structure FocusedVaultManager where
  focusedVault : Option FocusedVault
  lastVaultFoundTimestamp : Int
  vaultKeyPollingInterval : Bool
  focusedVaultSubscribers : List String
  batchTraceSubscribers : List String
  nextSocketId : Nat
deriving DecidableEq

/-- Externally visible actions of one manager handler invocation:
focus-change notifications (subscriber uuid, vault passed), batch-trace
notifications (subscriber uuid, traces passed), reconnects scheduled via
`setTimeout` (key, new retry count, delay in ms), and sockets closed. -/
structure MgrOutput where
  focusNotifications : List (String × Option FocusedVault)
  batchNotifications : List (String × List Trace)
  scheduledReconnects : List (String × Nat × Nat)
  closedSockets : List Nat
deriving DecidableEq

def emptyMgrOutput : MgrOutput := ⟨[], [], [], []⟩

def focusedKey (m : FocusedVaultManager) : Option String :=
  m.focusedVault.map (fun v => v.key)

/-- `this.focusedVaultSubscribers.forEach(subscriber => subscriber(this.focusedVault))`. -/
def notifyFocusSubscribers (m : FocusedVaultManager) :
    List (String × Option FocusedVault) :=
  m.focusedVaultSubscribers.map (fun uuid => (uuid, m.focusedVault))

/-- `switchFocusedVault(newFocusKey, retries)`: if the focused vault's key
differs (including when there is no focused vault), close and null the old
connection and construct a new `FocusedVault` with a fresh socket; in
every case notify all focus subscribers with the (post-assignment)
focused vault. -/
def switchFocusedVault (m : FocusedVaultManager) (newFocusKey : String)
    (retries : Nat) : FocusedVaultManager × MgrOutput :=
  if focusedKey m ≠ some newFocusKey then
    let closed : List Nat :=
      match m.focusedVault with
      | some v => v.wsConnection.toList
      | none => []
    let m1 := { m with
      focusedVault := some (mkFocusedVault newFocusKey retries m.nextSocketId),
      nextSocketId := m.nextSocketId + 1 }
    (m1, { emptyMgrOutput with
            closedSockets := closed,
            focusNotifications := notifyFocusSubscribers m1 })
  else
    (m, { emptyMgrOutput with focusNotifications := notifyFocusSubscribers m })

/-- JS stable sort order used by the discovery pass: comparator
`(a, b) => b.createdAt - a.createdAt` keeps `a` before `b` iff
`b.createdAt ≤ a.createdAt` (descending by `createdAt`; the comparator's
null branch is dead code because the list was filtered).  A stable sort by
this comparator is `List.mergeSort` with this `le`. -/
def jsSortLe (a b : VaultHistoryEntry) : Bool :=
  decide (b.createdAt ≤ a.createdAt)

/-- `vaults.filter(v => v !== null)`, `vaults.sort(...)`, `vaults[0]`. -/
def getMostRecentVault (vaults : List (Option VaultHistoryEntry)) :
    Option VaultHistoryEntry :=
  ((vaults.filterMap id).mergeSort jsSortLe).head?

/-- Input of one discovery pass: `none` when `workspaceFolders` is
undefined, otherwise the resolver result (`getCurrentLocalVaultKey`) for
each workspace folder in order. -/
abbrev DiscoveryInput := Option (List (Option VaultHistoryEntry))

/-- `checkVaultKeyAndUpdateConnection`: return early with no folders;
otherwise pick the most recent resolved vault and, if its `createdAt`
strictly exceeds `lastVaultFoundTimestamp`, record it and switch focus
(with the default `retries = 0`). -/
def checkVaultKeyAndUpdateConnection (m : FocusedVaultManager)
    (resolved : DiscoveryInput) : FocusedVaultManager × MgrOutput :=
  match resolved with
  | none => (m, emptyMgrOutput)
  | some vaults =>
      match getMostRecentVault vaults with
      | none => (m, emptyMgrOutput)
      | some mostRecentVault =>
          if m.lastVaultFoundTimestamp < mostRecentVault.createdAt then
            switchFocusedVault
              { m with lastVaultFoundTimestamp := mostRecentVault.createdAt }
              mostRecentVault.key 0
          else (m, emptyMgrOutput)

/-- `dispose`: clear the polling interval, close the focused vault's
connection if any, and clear the focused vault. -/
def dispose (m : FocusedVaultManager) : FocusedVaultManager × MgrOutput :=
  ({ m with vaultKeyPollingInterval := false, focusedVault := none },
   { emptyMgrOutput with
      closedSockets :=
        match m.focusedVault with
        | some v => v.wsConnection.toList
        | none => [] })

/-- Delay of the reconnect `setTimeout`:
`Math.pow(2, retries + 1) + 100` milliseconds. -/
def reconnectDelay (retries : Nat) : Nat := 2 ^ (retries + 1) + 100

/-- The websocket `close` handler of the vault that owns socket `sockId`
(captured `key`/`retries` are `vaultKey`/`vaultRetries`): null that
vault's `wsConnection` and run its `onClose` closure, which
unconditionally schedules `switchFocusedVault(vaultKey, vaultRetries + 1)`
after `reconnectDelay vaultRetries`.  The handler stays attached to the
socket, so it also runs when the close was deliberate (`close()` during a
focus switch or dispose). -/
def handleSocketClose (m : FocusedVaultManager) (sockId : Nat)
    (vaultKey : String) (vaultRetries : Nat) : FocusedVaultManager × MgrOutput :=
  let m1 := match m.focusedVault with
    | some fv =>
        if fv.wsConnection = some sockId then
          { m with focusedVault := some { fv with wsConnection := none } }
        else m
    | none => m
  (m1, { emptyMgrOutput with
          scheduledReconnects :=
            [(vaultKey, vaultRetries + 1, reconnectDelay vaultRetries)] })

/-- The body of the reconnect `setTimeout`: re-check the focused key and
call `switchFocusedVault` only if it still equals the captured key. -/
def reconnectTimeoutFire (m : FocusedVaultManager) (newFocusKey : String)
    (newRetries : Nat) : FocusedVaultManager × MgrOutput :=
  if focusedKey m = some newFocusKey then
    switchFocusedVault m newFocusKey newRetries
  else (m, emptyMgrOutput)

/-- Run a sequence of discovery passes, keeping only the state. -/
def runDiscovery (m : FocusedVaultManager) (passes : List DiscoveryInput) :
    FocusedVaultManager :=
  match passes with
  | [] => m
  | p :: rest => runDiscovery (checkVaultKeyAndUpdateConnection m p).1 rest

/-- Manager state as built by the constructor (before any discovery pass):
no focused vault, `lastVaultFoundTimestamp = 0`, polling active. -/
def initialManager : FocusedVaultManager :=
  { focusedVault := none, lastVaultFoundTimestamp := 0,
    vaultKeyPollingInterval := true, focusedVaultSubscribers := [],
    batchTraceSubscribers := [], nextSocketId := 0 }

/-- The candidates a discovery pass actually observes: the non-null
resolver results (none when `workspaceFolders` was undefined). -/
def observedOf (p : DiscoveryInput) : List VaultHistoryEntry :=
  (p.getD []).filterMap id

def observedAll (ps : List DiscoveryInput) : List VaultHistoryEntry :=
  (ps.map observedOf).flatten

/-- Greatest `createdAt` among a list of candidates, floored at the
initial `lastVaultFoundTimestamp` value `0`. -/
def maxCreatedAt (l : List VaultHistoryEntry) : Int :=
  l.foldr (fun v acc => max v.createdAt acc) 0

/-- Subscriber registry operations (a JS `Map` keyed by freshly generated
uuids): `subscribe` inserts a new key, the returned unsubscribe closure
deletes that key.  The registry is modelled by its key list in insertion
order; since `Map` keys are unique, `delete` removes exactly the entries
equal to the key. -/
def subscribeReg (reg : List String) (uuid : String) : List String :=
  reg ++ [uuid]

def unsubscribeReg (reg : List String) (uuid : String) : List String :=
  reg.filter (fun k => k ≠ uuid)

/-- A notification dispatch (`forEach` over the `Map`) invokes exactly the
currently registered listeners, in insertion order. -/
def notifyReg (reg : List String) : List String := reg

inductive RegOp where
  | sub (uuid : String)
  | unsub (uuid : String)
deriving DecidableEq

def applyRegOp (reg : List String) (op : RegOp) : List String :=
  match op with
  | RegOp.sub u => subscribeReg reg u
  | RegOp.unsub u => unsubscribeReg reg u

def applyRegOps (reg : List String) (ops : List RegOp) : List String :=
  match ops with
  | [] => reg
  | op :: rest => applyRegOps (applyRegOp reg op) rest

/-! ## Concrete manager states used by witnesses and counterexamples -/

/-- A manager focused on vault "A" (socket 0), no subscribers. -/
def mgrFocusA : FocusedVaultManager :=
  { focusedVault := some (mkFocusedVault "A" 0 0), lastVaultFoundTimestamp := 1,
    vaultKeyPollingInterval := true, focusedVaultSubscribers := [],
    batchTraceSubscribers := [], nextSocketId := 1 }

/-- A manager focused on vault "B" (socket 1), one focus subscriber. -/
def mgrFocusB : FocusedVaultManager :=
  { focusedVault := some (mkFocusedVault "B" 0 1), lastVaultFoundTimestamp := 5,
    vaultKeyPollingInterval := true, focusedVaultSubscribers := ["s1"],
    batchTraceSubscribers := [], nextSocketId := 2 }

/-! ## C10 — malformed frames -/

/-- C10: a frame on which decoding fails leaves the connection state
entirely unchanged (trace view, pending buffer, throttle flag, and the
first-frame flag) and produces no callback; consequently processing any
frame after a malformed one behaves exactly as if the malformed frame had
never arrived — in particular a first malformed frame does not consume
first-frame (backlog) treatment. -/
theorem malformed_frame_is_noop :
    (∀ v, onMessage v Frame.malformed = (v, emptyVaultOut))
    ∧ (∀ v f, onMessage (onMessage v Frame.malformed).1 f = onMessage v f) :=
  ⟨fun _ => rfl, fun _ _ => rfl⟩

/-! ## C6 — reconnect scheduling -/

/-- C6: every close-handler run for a connection with captured key `k` and
retry count `r` schedules `switchFocusedVault(k, r + 1)` after exactly
`2 ^ (r + 1) + 100` milliseconds (fixed jitter 100ms); the delay is
strictly increasing in `r` and unbounded — no retry cap exists. -/
theorem reconnect_scheduled_with_exponential_delay :
    (∀ m sockId k r,
        (handleSocketClose m sockId k r).2.scheduledReconnects
          = [(k, r + 1, reconnectDelay r)])
    ∧ (∀ r, reconnectDelay r = 2 ^ (r + 1) + 100)
    ∧ (∀ r, reconnectDelay r < reconnectDelay (r + 1))
    ∧ (∀ bound, ∃ r, bound < reconnectDelay r) := by
  refine ⟨fun _ _ _ _ => rfl, fun _ => rfl, ?_, ?_⟩
  · intro r
    have h := Nat.pow_lt_pow_right (by norm_num : 1 < 2) (Nat.lt_succ_self (r + 1))
    simp only [reconnectDelay]
    omega
  · intro bound
    refine ⟨bound, ?_⟩
    have h1 : bound < 2 ^ bound := Nat.lt_two_pow bound
    have h2 : 2 ^ bound ≤ 2 ^ (bound + 1) := Nat.pow_le_pow_right (by norm_num) (by omega)
    simp only [reconnectDelay]
    omega

/-! ## C8 — empty discovery pass -/

theorem getMostRecentVault_nil (vaults : List (Option VaultHistoryEntry))
    (h : vaults.filterMap id = []) : getMostRecentVault vaults = none := by
  unfold getMostRecentVault
  rw [h]
  simp

/-- C8: a discovery pass in which no root yields a candidate — either
`workspaceFolders` is undefined or every resolver result is null — leaves
the manager state (focused vault, last timestamp, connection) unchanged
and produces no notification, no scheduling, and no socket close. -/
theorem empty_discovery_pass_is_noop :
    (∀ m, checkVaultKeyAndUpdateConnection m none = (m, emptyMgrOutput))
    ∧ (∀ m vaults, vaults.filterMap id = [] →
        checkVaultKeyAndUpdateConnection m (some vaults) = (m, emptyMgrOutput)) := by
  refine ⟨fun _ => rfl, ?_⟩
  intro m vaults h
  have hg := getMostRecentVault_nil vaults h
  simp [checkVaultKeyAndUpdateConnection, hg]

/-- C8 witness: a pass over one workspace folder whose resolver returns
null changes nothing on the freshly constructed manager. -/
theorem empty_discovery_pass_is_noop_witness :
    checkVaultKeyAndUpdateConnection initialManager (some [none])
      = (initialManager, emptyMgrOutput) :=
  empty_discovery_pass_is_noop.2 initialManager [none] rfl

/-! ## C4 — stale reconnect guard -/

theorem focusedKey_handleSocketClose (m : FocusedVaultManager) (sockId : Nat)
    (k : String) (r : Nat) :
    focusedKey (handleSocketClose m sockId k r).1 = focusedKey m := by
  unfold handleSocketClose
  cases hm : m.focusedVault with
  | none => simp [hm, focusedKey]
  | some fv =>
      simp only [hm]
      split <;> simp [focusedKey, hm]

/-- C4: a backoff-scheduled reconnect for key `k` is a no-op at fire time
whenever the focused key is no longer `k` (including when the focus was
cleared): the state is unchanged and no notification, scheduling, or
socket close occurs.  In particular the close event of a superseded
connection, followed by the fire of the reconnect it scheduled, never
performs a reconnect attempt. -/
theorem stale_reconnect_is_noop :
    (∀ m k r, focusedKey m ≠ some k →
        reconnectTimeoutFire m k r = (m, emptyMgrOutput))
    ∧ (∀ m sockId k r, focusedKey m ≠ some k →
        reconnectTimeoutFire (handleSocketClose m sockId k r).1 k (r + 1)
          = ((handleSocketClose m sockId k r).1, emptyMgrOutput)) := by
  constructor
  · intro m k r h
    unfold reconnectTimeoutFire
    simp [h]
  · intro m sockId k r h
    unfold reconnectTimeoutFire
    simp [focusedKey_handleSocketClose, h]

/-- C4 witness: with the focus on "B", firing a reconnect scheduled for
"A" changes nothing. -/
theorem stale_reconnect_is_noop_witness :
    reconnectTimeoutFire mgrFocusB "A" 1 = (mgrFocusB, emptyMgrOutput) :=
  stale_reconnect_is_noop.1 mgrFocusB "A" 1 (by decide)

/-! ## C7 — selectFocus on the already-focused key -/

/-- C7: calling `switchFocusedVault` with the key of the currently focused
vault leaves the manager state identical — no teardown, no new
connection, no buffer reset — while still notifying every focus-change
subscriber with the current focused vault. -/
theorem switch_to_same_key_keeps_state_and_notifies :
    ∀ m fv r, m.focusedVault = some fv →
      switchFocusedVault m fv.key r
        = (m, { emptyMgrOutput with
                 focusNotifications :=
                   m.focusedVaultSubscribers.map (fun uuid => (uuid, some fv)) }) := by
  intro m fv r h
  have hk : focusedKey m = some fv.key := by
    unfold focusedKey
    rw [h]
    rfl
  unfold switchFocusedVault
  simp [hk, notifyFocusSubscribers, h]

/-- C7 witness: re-selecting "B" on a manager already focused on "B"
(with one subscriber) returns the unchanged state and one notification
carrying the current focused vault. -/
theorem switch_to_same_key_keeps_state_and_notifies_witness :
    switchFocusedVault mgrFocusB "B" 7
      = (mgrFocusB,
         { emptyMgrOutput with
            focusNotifications := [("s1", some (mkFocusedVault "B" 0 1))] }) := by
  have h := switch_to_same_key_keeps_state_and_notifies mgrFocusB
    (mkFocusedVault "B" 0 1) 7 rfl
  simpa using h

/-! ## C9 — unsubscribe semantics -/

theorem not_mem_applyRegOps : ∀ (ops : List RegOp) (reg : List String) (u : String),
    u ∉ reg → (∀ u', RegOp.sub u' ∈ ops → u' ≠ u) → u ∉ applyRegOps reg ops := by
  intro ops
  induction ops with
  | nil => intro reg u h _; exact h
  | cons op rest ih =>
      intro reg u h hfresh
      have hrest : ∀ u', RegOp.sub u' ∈ rest → u' ≠ u :=
        fun u' hm => hfresh u' (List.mem_cons_of_mem _ hm)
      apply ih _ _ _ hrest
      cases op with
      | sub u' =>
          have hne : u' ≠ u := hfresh u' (List.mem_cons_self _ _)
          simp only [applyRegOp, subscribeReg, List.mem_append,
            List.mem_singleton]
          rintro (hc | hc)
          · exact h hc
          · exact hne hc.symm
      | unsub w =>
          simp only [applyRegOp, unsubscribeReg, List.mem_filter]
          rintro ⟨hc, -⟩
          exact h hc

/-- C9: once a listener's unsubscribe closure has run, that listener is
absent from every later notification dispatch of the registry — for any
continuation of subscribe/unsubscribe operations whose fresh uuids differ
from the removed one — and unsubscribing it does not change which of the
remaining listeners a dispatch reaches. -/
theorem unsubscribe_stops_delivery :
    ∀ (reg : List String) (u : String) (ops : List RegOp),
      (∀ u', RegOp.sub u' ∈ ops → u' ≠ u) →
      (∀ n, u ∉ notifyReg (applyRegOps (unsubscribeReg reg u) (ops.take n)))
      ∧ (∀ w, w ≠ u → (w ∈ notifyReg (unsubscribeReg reg u) ↔ w ∈ notifyReg reg)) := by
  intro reg u ops hfresh
  constructor
  · intro n
    apply not_mem_applyRegOps
    · simp [unsubscribeReg, notifyReg, List.mem_filter]
    · intro u' hm
      exact hfresh u' ((List.take_sublist n ops).subset hm)
  · intro w hw
    simp [unsubscribeReg, notifyReg, List.mem_filter, hw]

/-- C9 witness: after removing listener "a" from the registry
`["a", "b"]`, a later dispatch (after a fresh subscription "c") does not
invoke "a". -/
theorem unsubscribe_stops_delivery_witness :
    "a" ∉ notifyReg (applyRegOps (unsubscribeReg ["a", "b"] "a")
      ([RegOp.sub "c"].take 1)) := by
  have h := unsubscribe_stops_delivery ["a", "b"] "a" [RegOp.sub "c"] (by
    intro u' hm
    simp only [List.mem_singleton, RegOp.sub.injEq] at hm
    subst hm
    decide)
  exact h.1 1

/-! ## C2 — first-frame backlog handling -/

/-- C2 counterexample: on a fresh connection whose very first frame
decodes as the empty sequence, the local event view is replaced by the
empty sequence but the immediate-delivery callback is NOT invoked (the
source guards `sendTracesImmediately` with `traces.length > 0`), so the
claim that the callback is invoked with the full sequence for every
first sequence frame is false. -/
theorem empty_first_frame_no_immediate_callback :
    (mkFocusedVault "k" 0 0).isFirst = true
    ∧ (onMessage (mkFocusedVault "k" 0 0) (Frame.arr [])).1.tracesData = []
    ∧ (onMessage (mkFocusedVault "k" 0 0) (Frame.arr [])).2.calls = [] := by
  decide

/-- C2 (amended): whenever the first frame received since connection open
decodes as a sequence, the local event view is replaced with exactly that
sequence; if the sequence is non-empty, the immediate-delivery callback is
invoked with the full sequence and the batcher is bypassed (no timer
armed, no pending-buffer change).  In particular the connection that
receives `[{id:1},{id:2}]` first and then `{id:3}` produces exactly one
immediate call with `[{id:1},{id:2}]` and — after the single armed
throttle timer fires — exactly one batched call with `[{id:3}]`. -/
theorem first_sequence_frame_is_backlog :
    (∀ v ts, v.isFirst = true →
        (onMessage v (Frame.arr ts)).1.tracesData = ts
        ∧ (onMessage v (Frame.arr ts)).1.isFirst = false)
    ∧ (∀ v ts, v.isFirst = true → ts ≠ [] →
        onMessage v (Frame.arr ts)
          = ({ v with tracesData := ts, isFirst := false },
             ⟨[BatchCall.immediate ts], 0⟩))
    ∧ (runConn (mkFocusedVault "k" 0 0)
        [ConnEvent.message (Frame.arr [⟨1⟩, ⟨2⟩]),
         ConnEvent.message (Frame.single ⟨3⟩),
         ConnEvent.throttleFire]).2
      = ⟨[BatchCall.immediate [⟨1⟩, ⟨2⟩], BatchCall.batched [⟨3⟩]], 1⟩ := by
  refine ⟨?_, ?_, by decide⟩
  · intro v ts h
    unfold onMessage sendTracesImmediately
    simp only [h, if_true]
    split <;> simp
  · intro v ts h hne
    unfold onMessage sendTracesImmediately
    simp [h, List.length_pos, hne]

/-- C2 witness: a non-empty first sequence frame on a fresh connection is
stored as the event view and delivered immediately. -/
theorem first_sequence_frame_is_backlog_witness :
    onMessage (mkFocusedVault "w" 0 0) (Frame.arr [⟨7⟩])
      = ({ mkFocusedVault "w" 0 0 with tracesData := [⟨7⟩], isFirst := false },
         ⟨[BatchCall.immediate [⟨7⟩]], 0⟩) :=
  first_sequence_frame_is_backlog.2.1 (mkFocusedVault "w" 0 0) [⟨7⟩] rfl
    (by decide)

/-! ## C3 — one flush per throttle window -/

theorem runEnqueues_spec :
    ∀ (batches : List (List Trace)) (v : FocusedVault),
      (runEnqueues v batches).1
        = { v with pendingTraces := v.pendingTraces ++ batches.flatten,
                   throttleTimeout := v.throttleTimeout || !batches.isEmpty }
      ∧ (runEnqueues v batches).2
        = ⟨[], if v.throttleTimeout then 0 else if batches.isEmpty then 0 else 1⟩ := by
  intro batches
  induction batches with
  | nil =>
      intro v
      constructor
      · simp [runEnqueues]
      · simp [runEnqueues, emptyVaultOut]
  | cons ts rest ih =>
      intro v
      by_cases hth : v.throttleTimeout
      · have h1 : queueTracesForSending v ts
            = ({ v with pendingTraces := v.pendingTraces ++ ts }, emptyVaultOut) := by
          unfold queueTracesForSending
          simp [hth]
        constructor
        · show (runEnqueues v (ts :: rest)).1 = _
          unfold runEnqueues
          rw [h1]
          rw [(ih _).1]
          simp [hth]
        · show (runEnqueues v (ts :: rest)).2 = _
          unfold runEnqueues
          rw [h1]
          dsimp only
          rw [(ih _).2]
          simp [hth, appendVaultOut, emptyVaultOut]
      · have h1 : queueTracesForSending v ts
            = ({ v with pendingTraces := v.pendingTraces ++ ts,
                        throttleTimeout := true }, ⟨[], 1⟩) := by
          unfold queueTracesForSending
          simp [hth]
        constructor
        · show (runEnqueues v (ts :: rest)).1 = _
          unfold runEnqueues
          rw [h1]
          rw [(ih _).1]
          simp [hth]
        · show (runEnqueues v (ts :: rest)).2 = _
          unfold runEnqueues
          rw [h1]
          dsimp only
          rw [(ih _).2]
          simp [hth, appendVaultOut]

/-- C3 counterexample: one `enqueue` call carrying the empty sequence,
made into an empty unarmed batcher, opens a throttle window (a timer is
armed) in which NO flush callback fires — the source guards
`sendPendingTraces` with `pendingTraces.length > 0` — contradicting the
claim that exactly one flush callback fires for every N ≥ 1 enqueues. -/
theorem empty_enqueue_window_no_flush :
    (queueTracesForSending (mkFocusedVault "k" 0 0) []).2.timersArmed = 1
    ∧ (sendPendingTraces
        (queueTracesForSending (mkFocusedVault "k" 0 0) []).1).2.calls = [] := by
  decide

/-- C3 (amended): for every N ≥ 1 enqueue calls made within one throttle
window — starting at the first enqueue into an empty, unarmed batcher —
whose concatenation is non-empty, exactly one throttle timer is armed and
its fire delivers exactly one flush callback carrying the concatenation of
all N enqueued sequences in arrival order, leaving the buffer empty and
the timer disarmed; a window in which nothing (or only empty sequences) is
enqueued produces no flush callback. -/
theorem throttle_window_single_flush :
    (∀ (v : FocusedVault) (batches : List (List Trace)),
        v.pendingTraces = [] → v.throttleTimeout = false →
        batches.flatten ≠ [] →
        (runEnqueues v batches).2 = ⟨[], 1⟩
        ∧ (sendPendingTraces (runEnqueues v batches).1).2.calls
            = [BatchCall.batched batches.flatten]
        ∧ (sendPendingTraces (runEnqueues v batches).1).1.pendingTraces = []
        ∧ (sendPendingTraces (runEnqueues v batches).1).1.throttleTimeout = false)
    ∧ (∀ v : FocusedVault, v.pendingTraces = [] →
        (sendPendingTraces v).2.calls = []) := by
  constructor
  · intro v batches hpend hth hflat
    have hb : batches ≠ [] := by
      intro hcon
      subst hcon
      exact hflat rfl
    have hbe : batches.isEmpty = false := by
      simpa [List.isEmpty_iff] using hb
    have hs := runEnqueues_spec batches v
    rw [hpend, hth] at hs
    simp only [List.nil_append, Bool.false_or, hbe, Bool.not_false,
      if_false, Bool.false_eq_true, List.isEmpty_eq_true] at hs
    have hlen : 0 < batches.flatten.length := List.length_pos.mpr hflat
    refine ⟨?_, ?_, ?_, ?_⟩
    · rw [hs.2]
    · rw [hs.1]
      unfold sendPendingTraces
      dsimp only
      rw [if_pos hlen]
    · rw [hs.1]
      unfold sendPendingTraces
      dsimp only
      rw [if_pos hlen]
    · rw [hs.1]
      unfold sendPendingTraces
      dsimp only
      rw [if_pos hlen]
  · intro v hpend
    unfold sendPendingTraces
    simp [hpend, emptyVaultOut]

/-- C3 witness: two enqueues `[{id:1}]` then `[{id:2},{id:3}]` in one
window arm exactly one timer and flush once with
`[{id:1},{id:2},{id:3}]`. -/
theorem throttle_window_single_flush_witness :
    (runEnqueues (mkFocusedVault "k" 0 0) [[⟨1⟩], [⟨2⟩, ⟨3⟩]]).2 = ⟨[], 1⟩
    ∧ (sendPendingTraces
        (runEnqueues (mkFocusedVault "k" 0 0) [[⟨1⟩], [⟨2⟩, ⟨3⟩]]).1).2.calls
        = [BatchCall.batched [⟨1⟩, ⟨2⟩, ⟨3⟩]] := by
  have h := throttle_window_single_flush.1 (mkFocusedVault "k" 0 0)
    [[⟨1⟩], [⟨2⟩, ⟨3⟩]] rfl rfl (by decide)
  exact ⟨h.1, h.2.1⟩

/-! ## C5 — close() and callback suppression -/

/-- C5 counterexample: switching focus from "A" to "B" deliberately closes
the "A" connection's socket (socket 0), yet the close handler registered
on that socket is never detached, so when the socket's close event fires
(as the ws library does after `close()`), the closure callback of the
closed "A" connection still runs and schedules a reconnect — contradicting
the claim that a deliberate `close()` suppresses all further callback
invocations for that connection. -/
theorem deliberate_close_still_runs_close_handler :
    (switchFocusedVault mgrFocusA "B" 0).2.closedSockets = [0]
    ∧ (handleSocketClose (switchFocusedVault mgrFocusA "B" 0).1 0 "A" 0).2.scheduledReconnects
        = [("A", 1, 102)] := by
  decide

/-- C5 (amended): `close()` severs the socket but does not suppress the
connection's close handler: the handler still runs, invoking the closure
callback, which schedules one reconnect.  For a connection whose key no
longer matches the focus (the deliberate-close situation during a focus
switch or dispose), that handler leaves the manager state unchanged,
invokes no focus-change or batch callback and closes no socket, and the
scheduled reconnect is a no-op at fire time — so no reconnection and no
subscriber-visible callback ever occurs on behalf of the closed
connection. -/
theorem closed_connection_callbacks_guarded :
    ∀ (m : FocusedVaultManager) (sockId : Nat) (k : String) (r : Nat),
      focusedKey m ≠ some k →
      (∀ fv, m.focusedVault = some fv → fv.wsConnection ≠ some sockId) →
      (handleSocketClose m sockId k r).1 = m
      ∧ (handleSocketClose m sockId k r).2.focusNotifications = []
      ∧ (handleSocketClose m sockId k r).2.batchNotifications = []
      ∧ (handleSocketClose m sockId k r).2.closedSockets = []
      ∧ (handleSocketClose m sockId k r).2.scheduledReconnects
          = [(k, r + 1, reconnectDelay r)]
      ∧ reconnectTimeoutFire m k (r + 1) = (m, emptyMgrOutput) := by
  intro m sockId k r hk hsock
  have h1 : (handleSocketClose m sockId k r).1 = m := by
    unfold handleSocketClose
    cases hm : m.focusedVault with
    | none => simp [hm]
    | some fv =>
        simp only [hm]
        rw [if_neg (hsock fv hm)]
  refine ⟨h1, rfl, rfl, rfl, rfl, ?_⟩
  unfold reconnectTimeoutFire
  simp [hk]

/-- C5 witness: with the focus on "B" (socket 1), the close handler of the
superseded "A" connection (socket 0) changes nothing, emits only the
reconnect scheduling, and the scheduled fire is a no-op. -/
theorem closed_connection_callbacks_guarded_witness :
    (handleSocketClose mgrFocusB 0 "A" 0).1 = mgrFocusB
    ∧ (handleSocketClose mgrFocusB 0 "A" 0).2.focusNotifications = []
    ∧ (handleSocketClose mgrFocusB 0 "A" 0).2.batchNotifications = []
    ∧ (handleSocketClose mgrFocusB 0 "A" 0).2.closedSockets = []
    ∧ (handleSocketClose mgrFocusB 0 "A" 0).2.scheduledReconnects
        = [("A", 1, reconnectDelay 0)]
    ∧ reconnectTimeoutFire mgrFocusB "A" 1 = (mgrFocusB, emptyMgrOutput) := by
  refine closed_connection_callbacks_guarded mgrFocusB 0 "A" 0 (by decide) ?_
  intro fv hfv
  have h2 : some (mkFocusedVault "B" 0 1) = some fv := hfv
  injection h2 with h3
  subst h3
  decide

/-! ## C1 — the focus tracks the globally maximal createdAt -/

theorem jsSortLe_trans : ∀ a b c : VaultHistoryEntry,
    jsSortLe a b = true → jsSortLe b c = true → jsSortLe a c = true := by
  intro a b c hab hbc
  simp only [jsSortLe, decide_eq_true_eq] at hab hbc ⊢
  exact le_trans hbc hab

theorem jsSortLe_total : ∀ a b : VaultHistoryEntry,
    (jsSortLe a b || jsSortLe b a) = true := by
  intro a b
  simp only [jsSortLe, Bool.or_eq_true, decide_eq_true_eq]
  exact le_total _ _

theorem getMostRecentVault_eq_none (vaults : List (Option VaultHistoryEntry))
    (h : getMostRecentVault vaults = none) : vaults.filterMap id = [] := by
  unfold getMostRecentVault at h
  have hperm := List.mergeSort_perm (vaults.filterMap id) jsSortLe
  cases hms : (vaults.filterMap id).mergeSort jsSortLe with
  | nil =>
      rw [hms] at hperm
      exact hperm.symm.eq_nil
  | cons a t =>
      rw [hms] at h
      simp at h

theorem getMostRecentVault_spec (vaults : List (Option VaultHistoryEntry))
    (v : VaultHistoryEntry) (h : getMostRecentVault vaults = some v) :
    v ∈ vaults.filterMap id
    ∧ ∀ u ∈ vaults.filterMap id, u.createdAt ≤ v.createdAt := by
  unfold getMostRecentVault at h
  have hperm := List.mergeSort_perm (vaults.filterMap id) jsSortLe
  have hsort := List.sorted_mergeSort jsSortLe_trans jsSortLe_total
    (vaults.filterMap id)
  cases hms : (vaults.filterMap id).mergeSort jsSortLe with
  | nil =>
      rw [hms] at h
      simp at h
  | cons a t =>
      rw [hms] at h hperm hsort
      have hva : v = a := by
        simpa using h.symm
      subst hva
      constructor
      · exact hperm.subset (List.mem_cons_self _ _)
      · intro u hu
        have hu' : u ∈ v :: t := hperm.symm.subset hu
        rcases List.mem_cons.mp hu' with h1 | h2
        · rw [h1]
        · have hle := (List.pairwise_cons.mp hsort).1 u h2
          simpa [jsSortLe] using hle

theorem maxCreatedAt_nonneg (l : List VaultHistoryEntry) : 0 ≤ maxCreatedAt l := by
  induction l with
  | nil => exact le_refl 0
  | cons v t ih => exact le_trans ih (le_max_right _ _)

theorem maxCreatedAt_cons (v : VaultHistoryEntry) (l : List VaultHistoryEntry) :
    maxCreatedAt (v :: l) = max v.createdAt (maxCreatedAt l) := rfl

theorem maxCreatedAt_append (a b : List VaultHistoryEntry) :
    maxCreatedAt (a ++ b) = max (maxCreatedAt a) (maxCreatedAt b) := by
  induction a with
  | nil =>
      show maxCreatedAt b = max (maxCreatedAt []) (maxCreatedAt b)
      rw [show maxCreatedAt [] = 0 from rfl,
        max_eq_right (maxCreatedAt_nonneg b)]
  | cons v t ih =>
      show max v.createdAt (maxCreatedAt (t ++ b)) = _
      rw [ih, maxCreatedAt_cons, max_assoc]

theorem le_maxCreatedAt_of_mem {v : VaultHistoryEntry}
    {l : List VaultHistoryEntry} (h : v ∈ l) : v.createdAt ≤ maxCreatedAt l := by
  induction l with
  | nil => cases h
  | cons w t ih =>
      rcases List.mem_cons.mp h with h1 | h2
      · rw [h1, maxCreatedAt_cons]
        exact le_max_left _ _
      · exact le_trans (ih h2) (le_max_right _ _)

theorem maxCreatedAt_le {c : Int} {l : List VaultHistoryEntry} (h0 : 0 ≤ c)
    (h : ∀ u ∈ l, u.createdAt ≤ c) : maxCreatedAt l ≤ c := by
  induction l with
  | nil => exact h0
  | cons w t ih =>
      rw [maxCreatedAt_cons]
      exact max_le (h w (List.mem_cons_self _ _))
        (ih (fun u hu => h u (List.mem_cons_of_mem _ hu)))

theorem maxCreatedAt_eq_of_max {v : VaultHistoryEntry}
    {l : List VaultHistoryEntry} (h1 : v ∈ l)
    (h2 : ∀ u ∈ l, u.createdAt ≤ v.createdAt) (h3 : 0 ≤ v.createdAt) :
    maxCreatedAt l = v.createdAt :=
  le_antisymm (maxCreatedAt_le h3 h2) (le_maxCreatedAt_of_mem h1)

theorem switchFocusedVault_lastTs (m : FocusedVaultManager) (k : String) (r : Nat) :
    (switchFocusedVault m k r).1.lastVaultFoundTimestamp
      = m.lastVaultFoundTimestamp := by
  unfold switchFocusedVault
  split <;> rfl

theorem focusedKey_switchFocusedVault (m : FocusedVaultManager) (k : String)
    (r : Nat) : focusedKey (switchFocusedVault m k r).1 = some k := by
  unfold switchFocusedVault
  by_cases h : focusedKey m ≠ some k
  · rw [if_pos h]
    simp [focusedKey, mkFocusedVault]
  · rw [if_neg h]
    exact Decidable.not_not.mp h

theorem key_eq_of_focusedKey {m : FocusedVaultManager} {fv : FocusedVault}
    {k : String} (h1 : m.focusedVault = some fv) (h2 : focusedKey m = some k) :
    fv.key = k := by
  unfold focusedKey at h2
  rw [h1] at h2
  simpa using h2

theorem observedOf_none : observedOf none = [] := rfl

theorem observedOf_some (vaults : List (Option VaultHistoryEntry)) :
    observedOf (some vaults) = vaults.filterMap id := rfl

theorem observedAll_cons (p : DiscoveryInput) (ps : List DiscoveryInput) :
    observedAll (p :: ps) = observedOf p ++ observedAll ps := by
  simp [observedAll]

/-- The invariant tying a manager state to the list of candidates observed
by all discovery passes so far. -/
def DiscoveryInv (m : FocusedVaultManager) (obs : List VaultHistoryEntry) : Prop :=
  m.lastVaultFoundTimestamp = maxCreatedAt obs
  ∧ (∀ fv, m.focusedVault = some fv →
      ∃ c, c ∈ obs ∧ c.key = fv.key ∧ c.createdAt = m.lastVaultFoundTimestamp)
  ∧ (m.focusedVault = none → obs = [])

theorem DiscoveryInv_step (m : FocusedVaultManager) (p : DiscoveryInput)
    (obs : List VaultHistoryEntry) (hInv : DiscoveryInv m obs)
    (hpos : ∀ v ∈ observedOf p, 0 < v.createdAt) :
    DiscoveryInv (checkVaultKeyAndUpdateConnection m p).1 (obs ++ observedOf p) := by
  obtain ⟨hTs, hFoc, hNone⟩ := hInv
  cases p with
  | none =>
      simpa [checkVaultKeyAndUpdateConnection, observedOf_none, DiscoveryInv]
        using ⟨hTs, hFoc, hNone⟩
  | some vaults =>
      rw [observedOf_some] at hpos ⊢
      cases hg : getMostRecentVault vaults with
      | none =>
          have hnil := getMostRecentVault_eq_none vaults hg
          simp only [checkVaultKeyAndUpdateConnection, hg, hnil, List.append_nil]
          exact ⟨hTs, hFoc, hNone⟩
      | some mr =>
          obtain ⟨hmem, hmax⟩ := getMostRecentVault_spec vaults mr hg
          have hposMr : 0 < mr.createdAt := hpos mr hmem
          have hmaxo : maxCreatedAt (vaults.filterMap id) = mr.createdAt :=
            maxCreatedAt_eq_of_max hmem hmax (le_of_lt hposMr)
          by_cases hlt : m.lastVaultFoundTimestamp < mr.createdAt
          · have hres : (checkVaultKeyAndUpdateConnection m (some vaults)).1
                = (switchFocusedVault
                    { m with lastVaultFoundTimestamp := mr.createdAt } mr.key 0).1 := by
              simp only [checkVaultKeyAndUpdateConnection, hg, if_pos hlt]
            have hts1 : (checkVaultKeyAndUpdateConnection m (some vaults)).1.lastVaultFoundTimestamp
                = mr.createdAt := by
              rw [hres, switchFocusedVault_lastTs]
            have hkey : focusedKey (checkVaultKeyAndUpdateConnection m (some vaults)).1
                = some mr.key := by
              rw [hres]
              exact focusedKey_switchFocusedVault _ _ _
            refine ⟨?_, ?_, ?_⟩
            · rw [hts1, maxCreatedAt_append, hmaxo, ← hTs,
                max_eq_right (le_of_lt hlt)]
            · intro fv hfv
              refine ⟨mr, List.mem_append_right _ hmem, ?_, ?_⟩
              · exact (key_eq_of_focusedKey hfv hkey).symm
              · rw [hts1]
            · intro hn
              exfalso
              unfold focusedKey at hkey
              rw [hn] at hkey
              simp at hkey
          · have hres : (checkVaultKeyAndUpdateConnection m (some vaults)).1 = m := by
              simp only [checkVaultKeyAndUpdateConnection, hg, if_neg hlt]
            have hle : mr.createdAt ≤ m.lastVaultFoundTimestamp := le_of_not_lt hlt
            refine ⟨?_, ?_, ?_⟩
            · rw [hres, maxCreatedAt_append, hmaxo, ← hTs,
                max_eq_left hle, hTs]
            · intro fv hfv
              rw [hres] at hfv
              obtain ⟨c, hc1, hc2, hc3⟩ := hFoc fv hfv
              exact ⟨c, List.mem_append_left _ hc1, hc2, by rw [hres, hc3]⟩
            · intro hn
              rw [hres] at hn
              have hobs := hNone hn
              exfalso
              rw [hobs] at hTs
              have : m.lastVaultFoundTimestamp = 0 := hTs
              rw [this] at hle
              exact absurd (lt_of_lt_of_le hposMr hle) (lt_irrefl 0)

theorem DiscoveryInv_run :
    ∀ (ps : List DiscoveryInput) (m : FocusedVaultManager)
      (obs : List VaultHistoryEntry), DiscoveryInv m obs →
      (∀ v ∈ observedAll ps, 0 < v.createdAt) →
      DiscoveryInv (runDiscovery m ps) (obs ++ observedAll ps) := by
  intro ps
  induction ps with
  | nil =>
      intro m obs h _
      simpa [runDiscovery, observedAll] using h
  | cons p rest ih =>
      intro m obs h hpos
      have hp : ∀ v ∈ observedOf p, 0 < v.createdAt := by
        intro v hv
        exact hpos v (by rw [observedAll_cons]; exact List.mem_append_left _ hv)
      have hrest : ∀ v ∈ observedAll rest, 0 < v.createdAt := by
        intro v hv
        exact hpos v (by rw [observedAll_cons]; exact List.mem_append_right _ hv)
      have hstep := DiscoveryInv_step m p obs h hp
      have := ih (checkVaultKeyAndUpdateConnection m p).1 _ hstep hrest
      rw [observedAll_cons, ← List.append_assoc]
      exact this

theorem lastTs_step_mono (m : FocusedVaultManager) (p : DiscoveryInput) :
    m.lastVaultFoundTimestamp
      ≤ (checkVaultKeyAndUpdateConnection m p).1.lastVaultFoundTimestamp := by
  cases p with
  | none => exact le_refl _
  | some vaults =>
      cases hg : getMostRecentVault vaults with
      | none =>
          simp only [checkVaultKeyAndUpdateConnection, hg]
          exact le_refl _
      | some mr =>
          by_cases hlt : m.lastVaultFoundTimestamp < mr.createdAt
          · simp only [checkVaultKeyAndUpdateConnection, hg, if_pos hlt,
              switchFocusedVault_lastTs]
            exact le_of_lt hlt
          · simp only [checkVaultKeyAndUpdateConnection, hg, if_neg hlt]
            exact le_refl _

theorem lastTs_run_mono : ∀ (ps : List DiscoveryInput) (m : FocusedVaultManager),
    m.lastVaultFoundTimestamp ≤ (runDiscovery m ps).lastVaultFoundTimestamp := by
  intro ps
  induction ps with
  | nil => intro m; exact le_refl _
  | cons p rest ih =>
      intro m
      exact le_trans (lastTs_step_mono m p) (ih _)

theorem runDiscovery_append :
    ∀ (a b : List DiscoveryInput) (m : FocusedVaultManager),
      runDiscovery m (a ++ b) = runDiscovery (runDiscovery m a) b := by
  intro a
  induction a with
  | nil => intro b m; rfl
  | cons p rest ih =>
      intro b m
      show runDiscovery (checkVaultKeyAndUpdateConnection m p).1 (rest ++ b) = _
      rw [ih]
      rfl

theorem lastTs_changed_step (m : FocusedVaultManager) (p : DiscoveryInput) :
    (checkVaultKeyAndUpdateConnection m p).1.lastVaultFoundTimestamp
        ≠ m.lastVaultFoundTimestamp →
    ∃ c, c ∈ observedOf p ∧ m.lastVaultFoundTimestamp < c.createdAt
      ∧ (checkVaultKeyAndUpdateConnection m p).1.lastVaultFoundTimestamp
          = c.createdAt
      ∧ focusedKey (checkVaultKeyAndUpdateConnection m p).1 = some c.key := by
  intro hch
  cases p with
  | none => exact absurd rfl hch
  | some vaults =>
      cases hg : getMostRecentVault vaults with
      | none =>
          rw [show (checkVaultKeyAndUpdateConnection m (some vaults)).1 = m by
            simp only [checkVaultKeyAndUpdateConnection, hg]] at hch
          exact absurd rfl hch
      | some mr =>
          by_cases hlt : m.lastVaultFoundTimestamp < mr.createdAt
          · obtain ⟨hmem, -⟩ := getMostRecentVault_spec vaults mr hg
            have hres : (checkVaultKeyAndUpdateConnection m (some vaults)).1
                = (switchFocusedVault
                    { m with lastVaultFoundTimestamp := mr.createdAt } mr.key 0).1 := by
              simp only [checkVaultKeyAndUpdateConnection, hg, if_pos hlt]
            refine ⟨mr, ?_, hlt, ?_, ?_⟩
            · rw [observedOf_some]
              exact hmem
            · rw [hres, switchFocusedVault_lastTs]
            · rw [hres]
              exact focusedKey_switchFocusedVault _ _ _
          · rw [show (checkVaultKeyAndUpdateConnection m (some vaults)).1 = m by
              simp only [checkVaultKeyAndUpdateConnection, hg, if_neg hlt]] at hch
            exact absurd rfl hch

/-- C1: across every sequence of discovery passes whose observed
candidates carry positive timestamps, the manager's
`lastVaultFoundTimestamp` equals the globally maximal `createdAt` observed
so far, the focused vault's key is the key of a candidate attaining that
maximum (and a focus exists as soon as any candidate was observed), the
timestamp is monotonically non-decreasing along the passes, and it changes
in a pass only when that pass observed a candidate whose `createdAt`
strictly exceeds it — the focus then moving to that candidate, never back
to an older one. -/
theorem focus_tracks_globally_max_createdAt :
    (∀ ps : List DiscoveryInput,
        (∀ v ∈ observedAll ps, 0 < v.createdAt) →
        (runDiscovery initialManager ps).lastVaultFoundTimestamp
            = maxCreatedAt (observedAll ps)
        ∧ (∀ fv, (runDiscovery initialManager ps).focusedVault = some fv →
            ∃ c, c ∈ observedAll ps ∧ c.key = fv.key
              ∧ c.createdAt = maxCreatedAt (observedAll ps))
        ∧ ((runDiscovery initialManager ps).focusedVault = none →
            observedAll ps = [])
        ∧ (∀ n, (runDiscovery initialManager (ps.take n)).lastVaultFoundTimestamp
              ≤ (runDiscovery initialManager ps).lastVaultFoundTimestamp))
    ∧ (∀ (m : FocusedVaultManager) (p : DiscoveryInput),
        m.lastVaultFoundTimestamp
          ≤ (checkVaultKeyAndUpdateConnection m p).1.lastVaultFoundTimestamp)
    ∧ (∀ (m : FocusedVaultManager) (p : DiscoveryInput),
        (checkVaultKeyAndUpdateConnection m p).1.lastVaultFoundTimestamp
            ≠ m.lastVaultFoundTimestamp →
        ∃ c, c ∈ observedOf p ∧ m.lastVaultFoundTimestamp < c.createdAt
          ∧ (checkVaultKeyAndUpdateConnection m p).1.lastVaultFoundTimestamp
              = c.createdAt
          ∧ focusedKey (checkVaultKeyAndUpdateConnection m p).1 = some c.key) := by
  refine ⟨?_, lastTs_step_mono, lastTs_changed_step⟩
  intro ps hpos
  have hInit : DiscoveryInv initialManager [] := by
    refine ⟨rfl, ?_, fun _ => rfl⟩
    intro fv hfv
    simp [initialManager] at hfv
  have hrun := DiscoveryInv_run ps initialManager [] hInit hpos
  rw [List.nil_append] at hrun
  obtain ⟨hTs, hFoc, hNone⟩ := hrun
  refine ⟨hTs, ?_, hNone, ?_⟩
  · intro fv hfv
    obtain ⟨c, hc1, hc2, hc3⟩ := hFoc fv hfv
    exact ⟨c, hc1, hc2, by rw [hc3, hTs]⟩
  · intro n
    conv_rhs => rw [← List.take_append_drop n ps]
    rw [runDiscovery_append]
    exact lastTs_run_mono _ _

/-- C1 witness: two passes observing candidates with timestamps 100, then
50 and 200, drive the manager to timestamp 200 with the focus on the key
of the 200 candidate, monotonically. -/
theorem focus_tracks_globally_max_createdAt_witness :
    (runDiscovery initialManager
        [some [some ⟨"a", 100⟩, none], some [some ⟨"b", 50⟩, some ⟨"c", 200⟩]]).lastVaultFoundTimestamp
      = maxCreatedAt (observedAll
          [some [some ⟨"a", 100⟩, none], some [some ⟨"b", 50⟩, some ⟨"c", 200⟩]])
    ∧ (∀ fv, (runDiscovery initialManager
        [some [some ⟨"a", 100⟩, none], some [some ⟨"b", 50⟩, some ⟨"c", 200⟩]]).focusedVault = some fv →
        ∃ c, c ∈ observedAll
            [some [some ⟨"a", 100⟩, none], some [some ⟨"b", 50⟩, some ⟨"c", 200⟩]]
          ∧ c.key = fv.key
          ∧ c.createdAt = maxCreatedAt (observedAll
              [some [some ⟨"a", 100⟩, none], some [some ⟨"b", 50⟩, some ⟨"c", 200⟩]]))
    ∧ ((runDiscovery initialManager
        [some [some ⟨"a", 100⟩, none], some [some ⟨"b", 50⟩, some ⟨"c", 200⟩]]).focusedVault = none →
        observedAll
          [some [some ⟨"a", 100⟩, none], some [some ⟨"b", 50⟩, some ⟨"c", 200⟩]] = [])
    ∧ (∀ n, (runDiscovery initialManager
          (List.take n
            [some [some ⟨"a", 100⟩, none], some [some ⟨"b", 50⟩, some ⟨"c", 200⟩]])).lastVaultFoundTimestamp
        ≤ (runDiscovery initialManager
            [some [some ⟨"a", 100⟩, none], some [some ⟨"b", 50⟩, some ⟨"c", 200⟩]]).lastVaultFoundTimestamp) :=
  focus_tracks_globally_max_createdAt.1
    [some [some ⟨"a", 100⟩, none], some [some ⟨"b", 50⟩, some ⟨"c", 200⟩]]
    (by decide)
